import Mathlib

/-!
Verification development for the AI study assistant backend
(`backend/storage.py`, `backend/graphrag_processor.py`, `backend/main.py`).

The Python sources are shallowly embedded: pure computations become Lean
functions, the process-wide engine state and the on-disk topic store become
explicit state values, exceptions become `Option`/`Except`/outcome parameters,
and the concurrent initialization routine becomes a small-step interleaving
semantics.  Python strings are sequences of Unicode code points, so slicing
and `len` are modelled through `String.data : List Char`.
-/

/-- `models.Message`: role is an open string (`"user"` or `"assistant"`). -/
structure Message where
  role : String
  content : String
  deriving DecidableEq, Repr

/-- `models.Topic`. -/
structure Topic where
  id : String
  name : String
  messages : List Message
  deriving DecidableEq, Repr

/-- `models.TopicInfo`: the derived listing view. -/
structure TopicInfo where
  id : String
  name : String
  preview : String
  deriving DecidableEq, Repr

/-- Python truthiness of an optional string: `None` and `""` are falsy. -/
def pyTruthy : Option String → Bool
  | none => false
  | some s => !(s == "")

/-- `storage._get_topic_path`, sanitization part: keep only alphanumeric,
dash and underscore characters (`storage.py` line 27; the trailing `rstrip`
never removes anything because the kept characters contain no whitespace). -/
def sanitizeId (topic_id : String) : String :=
  String.mk (topic_id.data.filter (fun c => c.isAlphanum || c == '-' || c == '_'))

/-- `storage._get_topic_path`: `none` models the raised `ValueError` on an id
that sanitizes to the empty string; otherwise the sanitized id (the file path
is determined by it). -/
def getTopicPath (topic_id : String) : Option String :=
  if sanitizeId topic_id == "" then none else some (sanitizeId topic_id)

/-- The on-disk topic store, keyed by sanitized id (one JSON file per topic). -/
def Store : Type := String → Option Topic

/-- The store with no topic files. -/
def emptyStore : Store := fun _ => none

/-- `storage.save_topic`: writes the full serialized topic at its sanitized
path; a `ValueError` from `_get_topic_path` is caught and logged, leaving the
store unchanged (`storage.py` lines 32-43). -/
def save_topic (store : Store) (t : Topic) : Store :=
  match getTopicPath t.id with
  | none => store
  | some p => fun q => if q = p then some t else store q

/-- `storage.load_topic`: fails closed (`None`) on an invalid id or a missing
file (`storage.py` lines 45-67). -/
def load_topic (store : Store) (topic_id : String) : Option Topic :=
  match getTopicPath topic_id with
  | none => none
  | some p => store p

/-- `storage.create_new_topic` (`storage.py` lines 70-80).  `freshId` stands
for the generated `uuid4` string and `existingCount` for
`len(list_topics())`; a falsy `name` argument selects the default name. -/
def create_new_topic (store : Store) (freshId : String) (name : Option String)
    (existingCount : Nat) : Store × Topic :=
  let nm := if pyTruthy name then name.getD "" else "Topic " ++ toString (existingCount + 1)
  let t : Topic := ⟨freshId, nm, []⟩
  (save_topic store t, t)

/-- `storage.add_message_to_topic`: load-modify-save; `none` and an unchanged
store when the topic does not load (`storage.py` lines 120-131). -/
def add_message_to_topic (store : Store) (topic_id : String) (m : Message) :
    Store × Option Topic :=
  match load_topic store topic_id with
  | none => (store, none)
  | some t =>
    let t' : Topic := ⟨t.id, t.name, t.messages ++ [m]⟩
    (save_topic store t', some t')

/-- Outcome of the `os.remove` call in `storage.delete_topic_file`: either the
file is removed, or the attempt fails (an `OSError`/`PermissionError` is
raised, or the file persists after the call) and the file remains. -/
inductive RemoveOutcome where
  | removed
  | failed
  deriving DecidableEq, Repr

/-- `storage.delete_topic_file` (`storage.py` lines 133-170): invalid id →
`False`; missing file → `True`; otherwise `os.remove`, returning `False`
exactly when the file still exists afterwards. -/
def delete_topic_file (store : Store) (topic_id : String) (os : RemoveOutcome) :
    Bool × Store :=
  match getTopicPath topic_id with
  | none => (false, store)
  | some p =>
    match store p with
    | none => (true, store)
    | some _ =>
      match os with
      | .removed => (true, fun q => if q = p then none else store q)
      | .failed => (false, store)

/-- First `m.content` among the messages with the given role:
`next((m.content for m in topic.messages if m.role == role), None)`. -/
def firstContent (role : String) (msgs : List Message) : Option String :=
  ((msgs.filter (fun m => m.role == role)).head?).map Message.content

/-- Preview of one source message in `storage.list_topics`:
`content[:50] + ("..." if len(content) > 50 else "")`. -/
def previewOf (c : String) : String :=
  String.mk (c.data.take 50) ++ (if 50 < c.data.length then "..." else "")

/-- The preview computation of `storage.list_topics` (`storage.py` lines
96-107), including the fallback branch for a topic whose messages carry
neither the user nor the assistant role. -/
def listPreview (msgs : List Message) : String :=
  if pyTruthy (firstContent "user" msgs) then
    previewOf ((firstContent "user" msgs).getD "")
  else
    match msgs with
    | [] => "New Topic"
    | m0 :: _ =>
      if pyTruthy (firstContent "assistant" msgs) then
        previewOf ((firstContent "assistant" msgs).getD "")
      else
        if m0.content == "" then "New Topic"
        else String.mk (m0.content.data.take 50) ++ "..."

/-- The fixed not-ready fallback of `graphrag_processor.query_rag` (line 274). -/
def notReadyMsg : String :=
  "知识库引擎尚未初始化，请稍后重试或检查启动日志。(Knowledge base engine not initialized. Please try again later or check startup logs.)"

/-- The fixed no-answer fallback of `graphrag_processor.query_rag` (line 286). -/
def noAnswerMsg : String :=
  "抱歉，未能从知识库中找到明确的答案。(Sorry, could not find a clear answer in the knowledge base.)"

/-- The exception fallback of `graphrag_processor.query_rag` (line 290): a
fixed template ending in the exception's type name. -/
def queryErrMsg (exName : String) : String :=
  "查询知识库时遇到错误，请稍后再试。(Error querying the knowledge base, please try again later.) Details: " ++ exName

/-- Result object returned by `LocalSearch.search`: `response` is `none` when
the attribute is missing and carries the (possibly empty) text otherwise. -/
structure SearchResult where
  response : Option String
  deriving DecidableEq, Repr

/-- Outcome of the awaited `_search_engine.search(query=question)` call:
either it raises an exception with the given type name, or it returns a
result object (`none` models a falsy/missing result). -/
inductive SearchOutcome where
  | raises (exName : String)
  | ok (result : Option SearchResult)
  deriving DecidableEq, Repr

/-- `graphrag_processor.query_rag` (lines 271-290), with the module state
`_initialized` / `_search_engine` and the engine call's outcome passed
explicitly.  The function is total: the `except Exception` handler means no
exception of the engine call propagates. -/
def query_rag (initialized : Bool) (enginePresent : Bool) (question : String)
    (chat_history : List Message) (outcome : SearchOutcome) : String :=
  if !initialized || !enginePresent then notReadyMsg
  else
    match outcome with
    | .raises exName => queryErrMsg exName
    | .ok none => noAnswerMsg
    | .ok (some r) =>
      match r.response with
      | none => noAnswerMsg
      | some resp => if resp == "" then noAnswerMsg else resp

/-- Engine lifecycle state: the module globals `_initialized` and
`_search_engine` of `graphrag_processor.py`. -/
structure EngineState where
  initialized : Bool
  enginePresent : Bool
  deriving DecidableEq, Repr

/-- Outcome of the external `graphrag index` subprocess in
`trigger_ingestion`: the command is missing from `PATH`, or it exits with the
given return code. -/
inductive IngestOutcome where
  | cmdNotFound
  | exited (code : Int)
  deriving DecidableEq, Repr

/-- `graphrag_processor.trigger_ingestion` (lines 293-322): the engine state
is reset *before* the subprocess runs; a missing command or a non-zero exit
raises `RuntimeError` (modelled as `Except.error`). -/
def trigger_ingestion (s : EngineState) (out : IngestOutcome) :
    EngineState × Except String Unit :=
  let s' : EngineState := ⟨false, false⟩
  match out with
  | .cmdNotFound => (s', .error "graphrag command not found")
  | .exited code =>
    if code ≠ 0 then (s', .error "GraphRAG indexing failed. Check logs above.")
    else (s', .ok ())

/-- `graphrag_processor._resolve_api_key` (lines 102-112).  `env` models
`os.getenv` (`none` = unset); `key` is the configured value (`none` = absent
from settings).  `str(None)` in Python is the literal string `"None"`. -/
def pyStr : Option String → String
  | none => "None"
  | some s => s

/-- Python `str.startswith`: the first `len(p)` code points equal `p`. -/
def pyStartsWith (s p : String) : Bool :=
  s.data.take p.data.length == p.data

/-- Python `str.endswith`: the last `len(p)` code points equal `p`. -/
def pyEndsWith (s p : String) : Bool :=
  s.data.drop (s.data.length - p.data.length) == p.data
    && p.data.length ≤ s.data.length

/-- `graphrag_processor._resolve_api_key` (lines 102-112). -/
def resolve_api_key (env : String → Option String) (key : Option String) :
    Option String :=
  if pyTruthy key
      && pyStartsWith (pyStr key) "$\x7b"
      && pyEndsWith (pyStr key) "\x7d" then
    env (String.mk (((pyStr key).data.drop 2).dropLast))
  else
    let direct := env (pyStr key)
    if pyTruthy direct then direct else key

/-- Server-sent events emitted by `stream_response` in `main.post_message`
(`main.py` lines 109-157).  The `endEv` event carries the topic id and the
serialized updated history. -/
inductive Event where
  | start (topicId : String)
  | chunk (content : String)
  | error (content : String)
  | endEv (topicId : String) (history : List Message)
  deriving DecidableEq, Repr

/-- The fixed localized error reply persisted and emitted by the `except`
branch of `stream_response` (`main.py` line 143). -/
def streamErrMsg : String :=
  "抱歉，处理您的请求时发生内部错误。(Sorry, an internal error occurred while processing your request.)"

/-- One effectful statement of the `try` body of `stream_response`. -/
inductive StreamAction where
  | emitStart
  | emitChunk (c : Char)
  | persist (m : Message)
  | emitEnd
  deriving DecidableEq, Repr

/-- Execute a list of stream actions against the topic's stored message list,
collecting the emitted events; `emitEnd` serializes the store as reloaded at
that moment (`main.py` lines 134-138). -/
def execStream (topicId : String) : List StreamAction → List Message →
    List Event × List Message
  | [], store => ([], store)
  | .emitStart :: rest, store =>
    let r := execStream topicId rest store
    (.start topicId :: r.1, r.2)
  | .emitChunk c :: rest, store =>
    let r := execStream topicId rest store
    (.chunk (String.mk [c]) :: r.1, r.2)
  | .persist m :: rest, store =>
    execStream topicId rest (store ++ [m])
  | .emitEnd :: rest, store =>
    let r := execStream topicId rest store
    (.endEv topicId store :: r.1, r.2)

/-- The `try` body of `stream_response` for a completed answer `reply`:
emit `start`, emit one single-character `chunk` per code point of the reply,
persist the assistant message, emit `end` (`main.py` lines 110-138). -/
def streamBody (reply : String) : List StreamAction :=
  .emitStart :: reply.data.map .emitChunk
    ++ [.persist ⟨"assistant", reply⟩, .emitEnd]

/-- `stream_response` (`main.py` lines 109-157) with fault injection:
`fault = some n` (with `n` short of the body's length) means an exception is
raised by statement `n` of the `try` body, after which the `except` branch
persists the fixed error reply, emits a single `error` event and the terminal
`end` event.  `msgs0` is the topic's stored message list when the generator
runs (the current user message was already appended by the endpoint). -/
def stream_response (topicId : String) (msgs0 : List Message) (reply : String)
    (fault : Option Nat) : List Event × List Message :=
  match fault with
  | some n =>
    if n < (streamBody reply).length then
      let r := execStream topicId ((streamBody reply).take n) msgs0
      let store' := r.2 ++ [⟨"assistant", streamErrMsg⟩]
      (r.1 ++ [.error streamErrMsg, .endEv topicId store'], store')
    else execStream topicId (streamBody reply) msgs0
  | none => execStream topicId (streamBody reply) msgs0

/-- Number of `endEv` events in an event list. -/
def endCount (evs : List Event) : Nat :=
  (evs.filter (fun e => match e with | .endEv _ _ => true | _ => false)).length

/-- Number of `error` events in an event list. -/
def errorCount (evs : List Event) : Nat :=
  (evs.filter (fun e => match e with | .error _ => true | _ => false)).length

/-- Concatenation of the payloads of the `chunk` events, in order. -/
def chunkConcat : List Event → String
  | [] => ""
  | .chunk c :: rest => c ++ chunkConcat rest
  | _ :: rest => chunkConcat rest

/-- Python `l[-10:]`: the last at-most-ten elements. -/
def lastTen (l : List Message) : List Message :=
  l.drop (l.length - 10)

/-- The part of `main.post_message` relevant to history assembly (`main.py`
lines 102-118): load the topic, append the user message to the store, and
hand `topic.messages[-10:]` — computed from the *pre-append* snapshot — to
`query_rag`.  Returns `none` on the 404 path, otherwise the store after the
user-message append together with the history handed to the query pipeline. -/
def post_message_history (store : Store) (topicId : String) (content : String) :
    Option (Store × List Message) :=
  match load_topic store topicId with
  | none => none
  | some topic =>
    let userMsg : Message := ⟨"user", content⟩
    let store1 := (add_message_to_topic store topicId userMsg).1
    some (store1, lastTen topic.messages)

/-!  Interleaving model of `graphrag_processor.initialize_rag` (lines
115-268).  Each of `n` concurrent callers runs: a lock-free fast-path check
of `_initialized`; `async with _lock`; a re-check of `_initialized` under the
lock; and, when still uninitialized, the initialization body, which either
completes all steps and sets `_initialized = True` or fails partway and
leaves it `False`.  The environment flag `env` says whether the
initialization steps succeed in this execution; `initCount` counts how many
times the body ran.  `GRAPHRAG_AVAILABLE` is taken as true (otherwise every
caller returns immediately and nothing ever initializes). -/

/-- Control location of one caller of `initialize_rag`. -/
inductive PC where
  | idle
  | wantLock
  | locked
  | finished (observedReady : Bool)
  deriving DecidableEq, Repr

/-- Shared state of the process: the `asyncio.Lock`, the `_initialized`
flag (with `_search_engine` present exactly when it is set), the program
counters of the `n` callers, and the count of initialization-body runs. -/
structure Sys (n : Nat) where
  lock : Option (Fin n)
  initialized : Bool
  threads : Fin n → PC
  initCount : Nat

/-- One interleaving step of the `n` callers of `initialize_rag`. -/
inductive InitStep (env : Bool) {n : Nat} : Sys n → Sys n → Prop where
  | fastPathReady (s : Sys n) (t : Fin n) :
      s.threads t = .idle → s.initialized = true →
      InitStep env s ⟨s.lock, s.initialized, Function.update s.threads t (.finished true), s.initCount⟩
  | fastPathNotReady (s : Sys n) (t : Fin n) :
      s.threads t = .idle → s.initialized = false →
      InitStep env s ⟨s.lock, s.initialized, Function.update s.threads t .wantLock, s.initCount⟩
  | acquire (s : Sys n) (t : Fin n) :
      s.threads t = .wantLock → s.lock = none →
      InitStep env s ⟨some t, s.initialized, Function.update s.threads t .locked, s.initCount⟩
  | recheckReady (s : Sys n) (t : Fin n) :
      s.threads t = .locked → s.initialized = true →
      InitStep env s ⟨none, s.initialized, Function.update s.threads t (.finished true), s.initCount⟩
  | runBody (s : Sys n) (t : Fin n) :
      s.threads t = .locked → s.initialized = false →
      InitStep env s ⟨none, env, Function.update s.threads t (.finished env), s.initCount + 1⟩

/-- Multi-step reachability of the interleaving semantics. -/
def InitReaches (env : Bool) {n : Nat} (s s' : Sys n) : Prop :=
  Relation.ReflTransGen (InitStep env) s s'

/-- Initial state: lock free, `_initialized = False`, every caller idle. -/
def initSys (n : Nat) : Sys n :=
  ⟨none, false, fun _ => .idle, 0⟩

/-- A failure-shaped outcome of the engine call: an exception, a falsy
result, a result without a `response` attribute, or an empty response. -/
def failureOutcome : SearchOutcome → Bool
  | .raises _ => true
  | .ok none => true
  | .ok (some r) =>
    match r.response with
    | none => true
    | some s => s == ""

/-- C5: for every question and history, when the engine is not READY (either
`_initialized` is false or the engine handle is absent) `query_rag` returns
the fixed localized not-ready message; the function is total, so it never
raises. -/
theorem query_rag_not_ready (i e : Bool) (question : String)
    (history : List Message) (outcome : SearchOutcome) :
    query_rag false e question history outcome = notReadyMsg ∧
    query_rag i false question history outcome = notReadyMsg := by
  constructor
  · simp [query_rag]
  · cases i <;> simp [query_rag]

/-- C4: with a READY engine, an exception of the engine call or an
empty/malformed result never propagates: `query_rag` (a total function)
returns the localized exception fallback — whose text embeds the exception
type name — for a raised error, and the localized no-answer fallback for a
falsy, attribute-less or empty result. -/
theorem query_rag_failure_fallback (question : String) (history : List Message)
    (exName : String) (outcome : SearchOutcome)
    (hfail : failureOutcome outcome = true) :
    query_rag true true question history (.raises exName) = queryErrMsg exName ∧
    queryErrMsg exName =
      "查询知识库时遇到错误，请稍后再试。(Error querying the knowledge base, please try again later.) Details: "
        ++ exName ∧
    query_rag true true question history outcome =
      (match outcome with
        | SearchOutcome.raises ex => queryErrMsg ex
        | _ => noAnswerMsg) := by
  refine ⟨rfl, rfl, ?_⟩
  match outcome with
  | .raises ex => rfl
  | .ok none => rfl
  | .ok (some r) =>
    match hr : r.response with
    | none => simp [query_rag, hr]
    | some s =>
      simp only [failureOutcome, hr] at hfail
      simp [query_rag, hr, hfail]

/-- C4 witness at a concrete failing outcome. -/
theorem query_rag_failure_fallback_witness :
    query_rag true true "q" [] (.raises "TimeoutError") = queryErrMsg "TimeoutError" ∧
    queryErrMsg "TimeoutError" =
      "查询知识库时遇到错误，请稍后再试。(Error querying the knowledge base, please try again later.) Details: "
        ++ "TimeoutError" ∧
    query_rag true true "q" [] (.ok none) =
      (match SearchOutcome.ok none with
        | SearchOutcome.raises ex => queryErrMsg ex
        | _ => noAnswerMsg) :=
  query_rag_failure_fallback "q" [] "TimeoutError" (.ok none) rfl

/-- C3 counterexample: with the engine READY (`⟨true, true⟩`) and the
indexing subprocess exiting with code 1, the failure is surfaced, yet the
engine state does *not* remain initialized: `trigger_ingestion` resets the
state before the subprocess even runs (`graphrag_processor.py` 296-297). -/
theorem trigger_ingestion_counterexample :
    (trigger_ingestion ⟨true, true⟩ (.exited 1)).1 ≠ EngineState.mk true true ∧
    (trigger_ingestion ⟨true, true⟩ (.exited 1)).1.initialized = false ∧
    (trigger_ingestion ⟨true, true⟩ (.exited 1)).1.enginePresent = false ∧
    (trigger_ingestion ⟨true, true⟩ (.exited 1)).2 =
      Except.error "GraphRAG indexing failed. Check logs above." := by
  refine ⟨?_, rfl, rfl, rfl⟩
  decide

/-- C3 amended: a failed ingestion run (missing command or non-zero exit)
surfaces as an error to the caller of `trigger_ingestion`; however, the
routine unconditionally resets the engine state to uninitialized with the
handle dropped — for every outcome, failed or successful — so a previously
READY engine does not survive the trigger. -/
theorem trigger_ingestion_amended (s : EngineState) (out : IngestOutcome)
    (hfail : out = .cmdNotFound ∨ ∃ c, out = .exited c ∧ c ≠ 0) :
    (∃ msg, (trigger_ingestion s out).2 = Except.error msg) ∧
    (trigger_ingestion s out).1 = EngineState.mk false false ∧
    (∀ out2 : IngestOutcome, (trigger_ingestion s out2).1 = EngineState.mk false false) := by
  refine ⟨?_, ?_, ?_⟩
  · rcases hfail with h | ⟨c, hc, hne⟩
    · subst h; exact ⟨_, rfl⟩
    · subst hc; simp [trigger_ingestion, hne]
  · rcases hfail with h | ⟨c, hc, hne⟩
    · subst h; rfl
    · subst hc; simp [trigger_ingestion, hne]
  · intro out2
    cases out2 with
    | cmdNotFound => rfl
    | exited c =>
      by_cases hc : c ≠ 0 <;> simp [trigger_ingestion, hc]

/-- C3 witness at a concrete failing exit code. -/
theorem trigger_ingestion_amended_witness :
    (∃ msg, (trigger_ingestion ⟨true, true⟩ (.exited 1)).2 = Except.error msg) ∧
    (trigger_ingestion ⟨true, true⟩ (.exited 1)).1 = EngineState.mk false false ∧
    (∀ out2 : IngestOutcome,
      (trigger_ingestion ⟨true, true⟩ out2).1 = EngineState.mk false false) :=
  trigger_ingestion_amended ⟨true, true⟩ (.exited 1) (Or.inr ⟨1, rfl, by decide⟩)

/-- C9 counterexample: a configured key value `"MYKEY"` that is *not* wrapped
in an env-var indirection is not used literally when an environment variable
of that exact name exists: `_resolve_api_key` returns the variable's value
(`graphrag_processor.py` lines 108-111). -/
theorem resolve_api_key_counterexample :
    resolve_api_key (fun v => if v = "MYKEY" then some "secret-value" else none)
        (some "MYKEY") = some "secret-value" ∧
    resolve_api_key (fun v => if v = "MYKEY" then some "secret-value" else none)
        (some "MYKEY") ≠ some "MYKEY" := by
  constructor
  · rfl
  · decide

/-- C9 amended: a value wrapped as an env-var reference resolves to the value
of the named environment variable (absent when unset); any *other* value is
first looked up directly as an environment-variable name, and only when no
non-empty variable of that name exists is the value itself used as the
literal key. -/
theorem resolve_api_key_amended (env : String → Option String) (v : String)
    (key : Option String)
    (hplain : (pyTruthy key && pyStartsWith (pyStr key) "$\x7b"
        && pyEndsWith (pyStr key) "\x7d") = false) :
    resolve_api_key env (some ("$\x7b" ++ v ++ "\x7d")) = env v ∧
    resolve_api_key env key =
      (if pyTruthy (env (pyStr key)) then env (pyStr key) else key) := by
  constructor
  · obtain ⟨vd⟩ := v
    show resolve_api_key env (some (String.mk ('$' :: '\x7b' :: (vd ++ ['\x7d'])))) = env ⟨vd⟩
    have hcond : (pyTruthy (some (String.mk ('$' :: '\x7b' :: (vd ++ ['\x7d']))))
        && pyStartsWith (pyStr (some (String.mk ('$' :: '\x7b' :: (vd ++ ['\x7d']))))) "$\x7b"
        && pyEndsWith (pyStr (some (String.mk ('$' :: '\x7b' :: (vd ++ ['\x7d']))))) "\x7d") = true := by
      simp only [pyTruthy, pyStr, pyStartsWith, pyEndsWith, Bool.and_eq_true, beq_iff_eq,
        Bool.not_eq_true', decide_eq_true_eq]
      refine ⟨⟨?_, ?_⟩, ?_, ?_⟩
      · simp [String.ext_iff]
      · rfl
      · have hlen : ('$' :: '\x7b' :: (vd ++ ['\x7d'])).length - ("\x7d" : String).data.length
            = vd.length + 1 + 1 := by
          simp
        rw [hlen]
        show List.drop (vd.length + 1) ('\x7b' :: (vd ++ ['\x7d'])) = _
        show List.drop vd.length (vd ++ ['\x7d']) = _
        rw [List.drop_left]
      · simp
    rw [resolve_api_key, hcond]
    simp only [pyStr]
    show env (String.mk (((('$' :: '\x7b' :: (vd ++ ['\x7d']))).drop 2).dropLast)) = env ⟨vd⟩
    rw [show (('$' :: '\x7b' :: (vd ++ ['\x7d']))).drop 2 = vd ++ ['\x7d'] from rfl,
      List.dropLast_concat]
  · rw [resolve_api_key, hplain]
    simp

/-- C9 witness: a wrapped reference resolving through the environment, and a
plain literal key with no matching environment variable. -/
theorem resolve_api_key_amended_witness :
    resolve_api_key (fun s => if s = "VAR" then some "k1" else none)
        (some ("$\x7b" ++ "VAR" ++ "\x7d"))
      = (fun s => if s = "VAR" then some "k1" else none) "VAR" ∧
    resolve_api_key (fun s => if s = "VAR" then some "k1" else none) (some "LITERAL") =
      (if pyTruthy ((fun s => if s = "VAR" then some "k1" else none) (pyStr (some "LITERAL")))
        then (fun s => if s = "VAR" then some "k1" else none) (pyStr (some "LITERAL"))
        else some "LITERAL") :=
  resolve_api_key_amended (fun s => if s = "VAR" then some "k1" else none) "VAR"
    (some "LITERAL") (by decide)

/-- C7: creating a topic with a valid (non-empty) name and a fresh id that
sanitizes to a non-empty token (as every `uuid4` string does), then loading
the returned topic's id from the updated store, yields a topic with exactly
that name and an empty message list. -/
theorem create_then_load_topic (store : Store) (freshId name : String)
    (count : Nat) (hname : name ≠ "") (hid : sanitizeId freshId ≠ "") :
    (create_new_topic store freshId (some name) count).2 = Topic.mk freshId name [] ∧
    load_topic (create_new_topic store freshId (some name) count).1
      ((create_new_topic store freshId (some name) count).2.id)
      = some (Topic.mk freshId name []) := by
  have htruthy : pyTruthy (some name) = true := by
    simp [pyTruthy, hname]
  have h2 : (create_new_topic store freshId (some name) count).2
      = Topic.mk freshId name [] := by
    simp [create_new_topic, htruthy]
  refine ⟨h2, ?_⟩
  rw [h2]
  have hpath : getTopicPath freshId = some (sanitizeId freshId) := by
    simp [getTopicPath, hid]
  simp only [create_new_topic, htruthy, if_pos, save_topic, load_topic, Option.getD]
  rw [hpath]
  simp [hpath]

/-- C7 witness at a concrete store, id and name. -/
theorem create_then_load_topic_witness :
    (create_new_topic emptyStore "abc-123" (some "Algebra") 0).2
      = Topic.mk "abc-123" "Algebra" [] ∧
    load_topic (create_new_topic emptyStore "abc-123" (some "Algebra") 0).1
      ((create_new_topic emptyStore "abc-123" (some "Algebra") 0).2.id)
      = some (Topic.mk "abc-123" "Algebra" []) :=
  create_then_load_topic emptyStore "abc-123" "Algebra" 0 (by decide) (by decide)

/-- C8: `delete_topic_file` is idempotent — with an id that sanitizes to a
non-empty token and a normally-behaving OS, two successive calls both return
`True` (the second finds the file already absent) — and a `False` return can
only happen when the id sanitizes to empty or the file still exists in the
store after the attempt. -/
theorem delete_topic_idempotent (store storeB : Store) (topic_id idB : String)
    (osB : RemoveOutcome) (hid : sanitizeId topic_id ≠ "")
    (hfalse : (delete_topic_file storeB idB osB).1 = false) :
    (delete_topic_file store topic_id .removed).1 = true ∧
    (delete_topic_file (delete_topic_file store topic_id .removed).2 topic_id .removed).1
      = true ∧
    (sanitizeId idB = "" ∨ (delete_topic_file storeB idB osB).2 (sanitizeId idB) ≠ none) := by
  have hpath : getTopicPath topic_id = some (sanitizeId topic_id) := by
    simp [getTopicPath, hid]
  refine ⟨?_, ?_, ?_⟩
  · rw [delete_topic_file, hpath]
    cases h : store (sanitizeId topic_id) <;> simp [h]
  · rw [delete_topic_file, hpath]
    cases h : store (sanitizeId topic_id) with
    | none =>
      simp only [h]
      rw [delete_topic_file, hpath]
      simp [h]
    | some t =>
      simp only [h]
      rw [delete_topic_file, hpath]
      simp [h]
  · by_cases hB : sanitizeId idB = ""
    · exact Or.inl hB
    · refine Or.inr ?_
      have hpathB : getTopicPath idB = some (sanitizeId idB) := by
        simp [getTopicPath, hB]
      rw [delete_topic_file, hpathB] at hfalse ⊢
      cases hs : storeB (sanitizeId idB) with
      | none => simp [hs] at hfalse
      | some t =>
        simp only [hs] at hfalse ⊢
        cases osB with
        | removed => simp at hfalse
        | failed => simp [hs]

/-- C8 witness: a store holding topic `t1`; two successive deletes succeed,
and a failing OS delete leaves the file in place and reports `False`. -/
theorem delete_topic_idempotent_witness :
    (delete_topic_file (fun q => if q = "t1" then some (Topic.mk "t1" "T" []) else none)
        "t1" .removed).1 = true ∧
    (delete_topic_file
        (delete_topic_file (fun q => if q = "t1" then some (Topic.mk "t1" "T" []) else none)
          "t1" .removed).2 "t1" .removed).1 = true ∧
    (sanitizeId "t1" = "" ∨
      (delete_topic_file (fun q => if q = "t1" then some (Topic.mk "t1" "T" []) else none)
        "t1" .failed).2 (sanitizeId "t1") ≠ none) :=
  delete_topic_idempotent
    (fun q => if q = "t1" then some (Topic.mk "t1" "T" []) else none)
    (fun q => if q = "t1" then some (Topic.mk "t1" "T" []) else none)
    "t1" "t1" .failed (by decide) (by decide)

/-- A found first message content comes from a member with the right role. -/
theorem firstContent_some (role : String) (msgs : List Message) (c : String)
    (h : firstContent role msgs = some c) :
    ∃ m, m ∈ msgs ∧ m.role = role ∧ m.content = c := by
  unfold firstContent at h
  cases hf : msgs.filter (fun m => m.role == role) with
  | nil => rw [hf] at h; simp at h
  | cons m rest =>
    rw [hf] at h
    simp only [List.head?, Option.map_some'] at h
    refine ⟨m, ?_, ?_, by injection h⟩
    · have : m ∈ msgs.filter (fun m => m.role == role) := by rw [hf]; exact List.mem_cons_self m rest
      exact List.mem_of_mem_filter this
    · have : m ∈ msgs.filter (fun m => m.role == role) := by rw [hf]; exact List.mem_cons_self m rest
      have := List.of_mem_filter this
      simpa using this

/-- An absent first message content means no member has the role. -/
theorem firstContent_none (role : String) (msgs : List Message)
    (h : firstContent role msgs = none) :
    ∀ m ∈ msgs, m.role ≠ role := by
  intro m hm
  unfold firstContent at h
  cases hf : msgs.filter (fun m => m.role == role) with
  | nil =>
    intro hr
    have : m ∈ msgs.filter (fun m => m.role == role) := by
      apply List.mem_filter_of_mem hm
      simp [hr]
    rw [hf] at this
    simp at this
  | cons m2 rest => rw [hf] at h; simp at h

/-- C6 counterexample: a loadable topic with no messages gets the placeholder
preview `"New Topic"`, not the empty preview the claim states. -/
theorem list_preview_counterexample :
    listPreview [] = "New Topic" ∧ listPreview [] ≠ "" := by
  refine ⟨rfl, ?_⟩
  decide

/-- C6 amended: for a loadable topic whose messages all carry the user or
assistant role with non-empty content (which is what the endpoints produce),
the preview is the truncation of the first user message, else of the first
assistant message, else — only for a topic with no messages — the placeholder
`"New Topic"`; truncation of a message longer than 50 characters is exactly
its first 50 characters plus an ellipsis marker, and a message of 50 or fewer
characters is kept whole with no ellipsis. -/
theorem list_preview_amended (msgs : List Message) (clong cshort : String)
    (hrole : ∀ m ∈ msgs, m.role = "user" ∨ m.role = "assistant")
    (hcontent : ∀ m ∈ msgs, m.content ≠ "")
    (hlong : 50 < clong.data.length) (hshort : cshort.data.length ≤ 50) :
    listPreview msgs =
      (match firstContent "user" msgs with
        | some c => previewOf c
        | none =>
          match firstContent "assistant" msgs with
          | some c => previewOf c
          | none => "New Topic") ∧
    previewOf clong = String.mk (clong.data.take 50) ++ "..." ∧
    (String.mk (clong.data.take 50)).length = 50 ∧
    previewOf cshort = cshort := by
  refine ⟨?_, ?_, ?_, ?_⟩
  · cases hu : firstContent "user" msgs with
    | some c =>
      obtain ⟨m, hm, hmr, hmc⟩ := firstContent_some _ _ _ hu
      have hc : c ≠ "" := hmc ▸ hcontent m hm
      rw [listPreview.eq_def, hu]
      simp [pyTruthy, hc]
    | none =>
      rw [listPreview.eq_def, hu]
      cases msgs with
      | nil => rfl
      | cons m0 rest =>
        have hm0r : m0.role = "assistant" := by
          rcases hrole m0 (List.mem_cons_self m0 rest) with h | h
          · exact absurd h (firstContent_none _ _ hu m0 (List.mem_cons_self m0 rest))
          · exact h
        have ha : firstContent "assistant" (m0 :: rest) = some m0.content := by
          unfold firstContent
          rw [List.filter_cons_of_pos]
          · rfl
          · simp [hm0r]
        have hc : m0.content ≠ "" := hcontent m0 (List.mem_cons_self m0 rest)
        rw [ha]
        simp [pyTruthy, hc]
  · rw [previewOf, if_pos hlong]
  · show (clong.data.take 50).length = 50
    rw [List.length_take]
    omega
  · rw [previewOf, if_neg (by omega), List.take_of_length_le hshort]
    apply String.ext
    show cshort.data ++ [] = cshort.data
    simp

/-- C6 witness: one user message, a 51-character message, a short message. -/
theorem list_preview_amended_witness :
    listPreview [Message.mk "user" "hi"] =
      (match firstContent "user" [Message.mk "user" "hi"] with
        | some c => previewOf c
        | none =>
          match firstContent "assistant" [Message.mk "user" "hi"] with
          | some c => previewOf c
          | none => "New Topic") ∧
    previewOf "aaaaaaaaaaaaaaaaaaaaaaaaaaaaaaaaaaaaaaaaaaaaaaaaaaa" =
      String.mk ("aaaaaaaaaaaaaaaaaaaaaaaaaaaaaaaaaaaaaaaaaaaaaaaaaaa".data.take 50) ++ "..." ∧
    (String.mk ("aaaaaaaaaaaaaaaaaaaaaaaaaaaaaaaaaaaaaaaaaaaaaaaaaaa".data.take 50)).length = 50 ∧
    previewOf "hi" = "hi" :=
  list_preview_amended [Message.mk "user" "hi"]
    "aaaaaaaaaaaaaaaaaaaaaaaaaaaaaaaaaaaaaaaaaaaaaaaaaaa" "hi"
    (by decide) (by decide) (by decide) (by decide)

/-- C10: for a loadable topic (whose stored id field matches the request id,
as every topic created through the store has), the history handed to the
query pipeline by the message endpoint is the last-at-most-10 slice of the
messages as loaded *before* the current user message was appended: it has
length at most 10, is a final segment of the stored order, cannot contain the
current request's user message, and that user message is persisted to the
store before the query runs. -/
theorem post_message_history_bounded (store : Store) (topicId content : String)
    (topic : Topic) (hload : load_topic store topicId = some topic)
    (hid2 : topic.id = topicId)
    (hfresh : Message.mk "user" content ∉ topic.messages) :
    ∃ store1 hist, post_message_history store topicId content = some (store1, hist) ∧
      hist.length ≤ 10 ∧
      (∃ pre, pre ++ hist = topic.messages) ∧
      Message.mk "user" content ∉ hist ∧
      load_topic store1 topicId =
        some (Topic.mk topic.id topic.name (topic.messages ++ [Message.mk "user" content])) := by
  obtain ⟨p, hp⟩ : ∃ p, getTopicPath topicId = some p := by
    rw [load_topic] at hload
    cases hp : getTopicPath topicId with
    | none => rw [hp] at hload; cases hload
    | some p => exact ⟨p, rfl⟩
  have hsp : store p = some topic := by
    rw [load_topic, hp] at hload
    exact hload
  refine ⟨(add_message_to_topic store topicId (Message.mk "user" content)).1,
    lastTen topic.messages, ?_, ?_, ?_, ?_, ?_⟩
  · rw [post_message_history.eq_def, hload]
  · rw [lastTen, List.length_drop]
    omega
  · exact ⟨topic.messages.take (topic.messages.length - 10), List.take_append_drop _ _⟩
  · intro hmem
    exact hfresh (List.drop_subset _ topic.messages hmem)
  · rw [add_message_to_topic.eq_def, hload]
    simp only [load_topic, save_topic, hid2, hp]
    simp

/-- The events of a concatenation of stream actions are the concatenation of
the events, threading the store. -/
theorem execStream_append (tid : String) (l1 l2 : List StreamAction)
    (store : List Message) :
    execStream tid (l1 ++ l2) store =
      ((execStream tid l1 store).1 ++ (execStream tid l2 (execStream tid l1 store).2).1,
        (execStream tid l2 (execStream tid l1 store).2).2) := by
  induction l1 generalizing store with
  | nil => simp [execStream]
  | cons a rest ih => cases a <;> simp [execStream, ih]

theorem execStream_chunks (tid : String) (cs : List Char) (store : List Message) :
    execStream tid (cs.map StreamAction.emitChunk) store =
      (cs.map (fun c => Event.chunk (String.mk [c])), store) := by
  induction cs generalizing store with
  | nil => simp [execStream]
  | cons c rest ih => simp [execStream, ih]

theorem str_append_assoc (a b c : String) : a ++ b ++ c = a ++ (b ++ c) := by
  obtain ⟨la⟩ := a; obtain ⟨lb⟩ := b; obtain ⟨lc⟩ := c
  apply String.ext
  show (la ++ lb) ++ lc = la ++ (lb ++ lc)
  exact List.append_assoc la lb lc

theorem str_append_empty (s : String) : s ++ "" = s := by
  obtain ⟨l⟩ := s
  apply String.ext
  show l ++ [] = l
  simp

theorem chunkConcat_append (a b : List Event) :
    chunkConcat (a ++ b) = chunkConcat a ++ chunkConcat b := by
  induction a with
  | nil =>
    show chunkConcat b = "" ++ chunkConcat b
    obtain ⟨l⟩ := chunkConcat b
    rfl
  | cons e rest ih =>
    cases e with
    | chunk c =>
      show c ++ chunkConcat (rest ++ b) = (c ++ chunkConcat rest) ++ chunkConcat b
      rw [ih, str_append_assoc]
    | start tid => simpa [chunkConcat] using ih
    | error m => simpa [chunkConcat] using ih
    | endEv tid h => simpa [chunkConcat] using ih

theorem chunkConcat_chunks (cs : List Char) :
    chunkConcat (cs.map (fun c => Event.chunk (String.mk [c]))) = String.mk cs := by
  induction cs with
  | nil => rfl
  | cons c rest ih =>
    show String.mk [c] ++ chunkConcat (rest.map _) = String.mk (c :: rest)
    rw [ih]
    rfl

theorem endCount_append (a b : List Event) :
    endCount (a ++ b) = endCount a + endCount b := by
  simp [endCount, List.filter_append]

theorem errorCount_append (a b : List Event) :
    errorCount (a ++ b) = errorCount a + errorCount b := by
  simp [errorCount, List.filter_append]

theorem endCount_chunks (cs : List Char) :
    endCount (cs.map (fun c => Event.chunk (String.mk [c]))) = 0 := by
  induction cs with
  | nil => rfl
  | cons c rest ih => simpa [endCount, List.filter] using ih

theorem errorCount_execStream (tid : String) (L : List StreamAction)
    (store : List Message) : errorCount (execStream tid L store).1 = 0 := by
  induction L generalizing store with
  | nil => rfl
  | cons a rest ih =>
    cases a <;> simp [execStream, errorCount, List.filter] <;>
      simpa [errorCount] using ih _
  -- may need adjusting

theorem endCount_execStream (tid : String) (L : List StreamAction)
    (store : List Message) (h : StreamAction.emitEnd ∉ L) :
    endCount (execStream tid L store).1 = 0 := by
  induction L generalizing store with
  | nil => rfl
  | cons a rest ih =>
    have ha : a ≠ StreamAction.emitEnd := fun he => h (he ▸ List.mem_cons_self a rest)
    have hrest : StreamAction.emitEnd ∉ rest := fun he => h (List.mem_cons_of_mem a he)
    cases a with
    | emitStart => simpa [execStream, endCount, List.filter] using ih _ hrest
    | emitChunk c => simpa [execStream, endCount, List.filter] using ih _ hrest
    | persist m => simpa [execStream] using ih _ hrest
    | emitEnd => exact absurd rfl ha

theorem execStream_body (tid : String) (reply : String) (msgs0 : List Message) :
    execStream tid (streamBody reply) msgs0 =
      (Event.start tid ::
        (reply.data.map (fun c => Event.chunk (String.mk [c]))
          ++ [Event.endEv tid (msgs0 ++ [⟨"assistant", reply⟩])]),
        msgs0 ++ [⟨"assistant", reply⟩]) := by
  rw [streamBody]
  show execStream tid (.emitStart :: (reply.data.map .emitChunk
    ++ [.persist ⟨"assistant", reply⟩, .emitEnd])) msgs0 = _
  simp only [execStream, execStream_append, execStream_chunks]

/-- C1: every run of `stream_response` — success, or an exception raised at
any statement of the `try` body — emits an event list that terminates with
exactly one `end` event; on success the concatenation of the `chunk` payloads
equals the content of the assistant message appended to the topic store, and
on failure the single `error` event's payload equals the content of the
(final) assistant message appended by the handler. -/
theorem stream_response_terminates_reconstructs (topicId : String) (msgs0 : List Message)
    (reply : String) (fault : Option Nat) :
    (∃ pre hist, (stream_response topicId msgs0 reply fault).1
        = pre ++ [Event.endEv topicId hist] ∧ endCount pre = 0) ∧
    (match fault with
      | none =>
        errorCount (stream_response topicId msgs0 reply fault).1 = 0 ∧
        chunkConcat (stream_response topicId msgs0 reply fault).1 = reply ∧
        (stream_response topicId msgs0 reply fault).2
          = msgs0 ++ [Message.mk "assistant" reply]
      | some n =>
        if n < (streamBody reply).length then
          errorCount (stream_response topicId msgs0 reply fault).1 = 1 ∧
          Event.error streamErrMsg ∈ (stream_response topicId msgs0 reply fault).1 ∧
          ((stream_response topicId msgs0 reply fault).2).getLast?
            = some (Message.mk "assistant" streamErrMsg)
        else
          errorCount (stream_response topicId msgs0 reply fault).1 = 0 ∧
          chunkConcat (stream_response topicId msgs0 reply fault).1 = reply ∧
          (stream_response topicId msgs0 reply fault).2
            = msgs0 ++ [Message.mk "assistant" reply]) := by
  have hsucc : ∀ hEq : (stream_response topicId msgs0 reply fault)
      = execStream topicId (streamBody reply) msgs0,
      (∃ pre hist, (stream_response topicId msgs0 reply fault).1
          = pre ++ [Event.endEv topicId hist] ∧ endCount pre = 0) ∧
      errorCount (stream_response topicId msgs0 reply fault).1 = 0 ∧
      chunkConcat (stream_response topicId msgs0 reply fault).1 = reply ∧
      (stream_response topicId msgs0 reply fault).2
        = msgs0 ++ [Message.mk "assistant" reply] := by
    intro hEq
    rw [hEq, execStream_body]
    refine ⟨⟨Event.start topicId
        :: reply.data.map (fun c => Event.chunk (String.mk [c])),
        msgs0 ++ [Message.mk "assistant" reply], ?_, ?_⟩, ?_, ?_, rfl⟩
    · simp
    · simpa [endCount, List.filter] using endCount_chunks reply.data
    · have h1 : errorCount (Event.start topicId
          :: (reply.data.map (fun c => Event.chunk (String.mk [c]))
            ++ [Event.endEv topicId (msgs0 ++ [Message.mk "assistant" reply])])) =
          errorCount (reply.data.map (fun c => Event.chunk (String.mk [c])))
            + errorCount [Event.endEv topicId (msgs0 ++ [Message.mk "assistant" reply])] := by
        simp [errorCount, List.filter, List.filter_append]
      rw [h1]
      have h2 : errorCount (reply.data.map (fun c => Event.chunk (String.mk [c]))) = 0 := by
        induction reply.data with
        | nil => rfl
        | cons c rest ih => simpa [errorCount, List.filter] using ih
      rw [h2]
      rfl
    · show chunkConcat (Event.start topicId
          :: (reply.data.map (fun c => Event.chunk (String.mk [c]))
            ++ [Event.endEv topicId (msgs0 ++ [Message.mk "assistant" reply])])) = reply
      rw [show chunkConcat (Event.start topicId
          :: (reply.data.map (fun c => Event.chunk (String.mk [c]))
            ++ [Event.endEv topicId (msgs0 ++ [Message.mk "assistant" reply])]))
          = chunkConcat (reply.data.map (fun c => Event.chunk (String.mk [c]))
            ++ [Event.endEv topicId (msgs0 ++ [Message.mk "assistant" reply])]) from rfl]
      rw [chunkConcat_append, chunkConcat_chunks]
      rw [show chunkConcat [Event.endEv topicId (msgs0 ++ [Message.mk "assistant" reply])]
          = "" from rfl]
      rw [str_append_empty]
  match fault with
  | none =>
    have h := hsucc rfl
    exact ⟨h.1, h.2⟩
  | some n =>
    by_cases hlt : n < (streamBody reply).length
    · have hys : stream_response topicId msgs0 reply (some n)
          = ((execStream topicId ((streamBody reply).take n) msgs0).1
              ++ [Event.error streamErrMsg,
                Event.endEv topicId ((execStream topicId ((streamBody reply).take n) msgs0).2
                  ++ [Message.mk "assistant" streamErrMsg])],
            (execStream topicId ((streamBody reply).take n) msgs0).2
              ++ [Message.mk "assistant" streamErrMsg]) := by
        rw [stream_response.eq_def]
        simp only [hlt, if_pos]
      have hnotin : StreamAction.emitEnd ∉ (streamBody reply).take n := by
        have hsplit : streamBody reply
            = (StreamAction.emitStart :: reply.data.map StreamAction.emitChunk
                ++ [StreamAction.persist ⟨"assistant", reply⟩]) ++ [StreamAction.emitEnd] := by
          simp [streamBody]
        have hlen : n ≤ (StreamAction.emitStart :: reply.data.map StreamAction.emitChunk
            ++ [StreamAction.persist ⟨"assistant", reply⟩]).length := by
          rw [hsplit] at hlt
          simp at hlt ⊢
          omega
        rw [hsplit, List.take_append_of_le_length hlen]
        intro hmem
        have := List.take_subset n _ hmem
        simp at this
      have hend0 := endCount_execStream topicId _ msgs0 hnotin
      have herr0 := errorCount_execStream topicId ((streamBody reply).take n) msgs0
      simp only [hlt, if_true]
      refine ⟨?_, ?_, ?_, ?_⟩
      · refine ⟨(execStream topicId ((streamBody reply).take n) msgs0).1
          ++ [Event.error streamErrMsg],
          (execStream topicId ((streamBody reply).take n) msgs0).2
            ++ [Message.mk "assistant" streamErrMsg], ?_, ?_⟩
        · rw [hys]
          rw [List.append_assoc]
          rfl
        · rw [endCount_append, hend0]
          rfl
      · rw [hys]
        show errorCount ((execStream topicId ((streamBody reply).take n) msgs0).1
          ++ [Event.error streamErrMsg, Event.endEv topicId _]) = 1
        rw [errorCount_append, herr0]
        rfl
      · rw [hys]
        exact List.mem_append_right _ (List.mem_cons_self _ _)
      · rw [hys]
        exact List.getLast?_concat _
    · have heq : stream_response topicId msgs0 reply (some n)
          = execStream topicId (streamBody reply) msgs0 := by
        rw [stream_response.eq_def]
        simp only [hlt, if_neg, ite_false]
      have h := hsucc heq
      simp only [hlt, if_false]
      exact ⟨h.1, h.2⟩

/-- Where an updated thread map can send a thread. -/
theorem update_cases {n : Nat} (f : Fin n → PC) (t u : Fin n) (v w : PC)
    (h : Function.update f t v u = w) : (u = t ∧ v = w) ∨ (u ≠ t ∧ f u = w) := by
  rcases eq_or_ne u t with rfl | hne
  · rw [Function.update_same] at h
    exact Or.inl ⟨rfl, h⟩
  · rw [Function.update_noteq hne] at h
    exact Or.inr ⟨hne, h⟩

/-- The lock is held exactly by the thread inside the locked section. -/
def LockInv {n : Nat} (s : Sys n) : Prop :=
  (∀ t, s.threads t = .locked → s.lock = some t) ∧
  (∀ t, s.lock = some t → s.threads t = .locked)

/-- The lock invariant is preserved by every step. -/
theorem lockInv_step {n : Nat} (env : Bool) (s s2 : Sys n)
    (h : InitStep env s s2) (hs : LockInv s) : LockInv s2 := by
  cases h with
  | fastPathReady t hidle hinit =>
    refine ⟨fun u hu => ?_, fun u hu => ?_⟩
    · rcases update_cases _ _ _ _ _ hu with ⟨rfl, hv⟩ | ⟨hne, hu2⟩
      · cases hv
      · exact hs.1 u hu2
    · have h2 := hs.2 u hu
      rcases eq_or_ne u t with rfl | hne
      · rw [hidle] at h2; cases h2
      · show Function.update s.threads t (PC.finished true) u = PC.locked
        rw [Function.update_noteq hne]
        exact h2
  | fastPathNotReady t hidle hinit =>
    refine ⟨fun u hu => ?_, fun u hu => ?_⟩
    · rcases update_cases _ _ _ _ _ hu with ⟨rfl, hv⟩ | ⟨hne, hu2⟩
      · cases hv
      · exact hs.1 u hu2
    · have h2 := hs.2 u hu
      rcases eq_or_ne u t with rfl | hne
      · rw [hidle] at h2; cases h2
      · show Function.update s.threads t PC.wantLock u = PC.locked
        rw [Function.update_noteq hne]
        exact h2
  | acquire t hwant hlock =>
    refine ⟨fun u hu => ?_, fun u hu => ?_⟩
    · rcases update_cases _ _ _ _ _ hu with ⟨rfl, hv⟩ | ⟨hne, hu2⟩
      · rfl
      · have h1 := hs.1 u hu2
        rw [hlock] at h1; cases h1
    · have ht : t = u := by injection hu
      subst ht
      show Function.update s.threads t PC.locked t = PC.locked
      rw [Function.update_same]
  | recheckReady t hlocked hinit =>
    refine ⟨fun u hu => ?_, fun u hu => ?_⟩
    · rcases update_cases _ _ _ _ _ hu with ⟨rfl, hv⟩ | ⟨hne, hu2⟩
      · cases hv
      · have h1 := hs.1 u hu2
        have h2 := hs.1 t hlocked
        rw [h1] at h2
        injection h2 with h3
        exact absurd h3 hne
    · cases hu
  | runBody t hlocked hinit =>
    refine ⟨fun u hu => ?_, fun u hu => ?_⟩
    · rcases update_cases _ _ _ _ _ hu with ⟨rfl, hv⟩ | ⟨hne, hu2⟩
      · cases hv
      · have h1 := hs.1 u hu2
        have h2 := hs.1 t hlocked
        rw [h1] at h2
        injection h2 with h3
        exact absurd h3 hne
    · cases hu

/-- Invariant under a succeeding environment: the body ran exactly once
after the flag was set, and every finished caller observed READY. -/
def SuccInv {n : Nat} (s : Sys n) : Prop :=
  (s.initCount = if s.initialized then 1 else 0) ∧
  (∀ t b, s.threads t = .finished b → b = true ∧ s.initialized = true)

/-- The success invariant is preserved by every step with `env = true`. -/
theorem succInv_step {n : Nat} (s s2 : Sys n)
    (h : InitStep true s s2) (hs : SuccInv s) : SuccInv s2 := by
  cases h with
  | fastPathReady t hidle hinit =>
    refine ⟨hs.1, fun u b hu => ?_⟩
    rcases update_cases _ _ _ _ _ hu with ⟨rfl, hv⟩ | ⟨hne, hu2⟩
    · injection hv with hb
      exact ⟨hb.symm, hinit⟩
    · exact hs.2 u b hu2
  | fastPathNotReady t hidle hinit =>
    refine ⟨hs.1, fun u b hu => ?_⟩
    rcases update_cases _ _ _ _ _ hu with ⟨rfl, hv⟩ | ⟨hne, hu2⟩
    · cases hv
    · exact hs.2 u b hu2
  | acquire t hwant hlock =>
    refine ⟨hs.1, fun u b hu => ?_⟩
    rcases update_cases _ _ _ _ _ hu with ⟨rfl, hv⟩ | ⟨hne, hu2⟩
    · cases hv
    · exact hs.2 u b hu2
  | recheckReady t hlocked hinit =>
    refine ⟨hs.1, fun u b hu => ?_⟩
    rcases update_cases _ _ _ _ _ hu with ⟨rfl, hv⟩ | ⟨hne, hu2⟩
    · injection hv with hb
      exact ⟨hb.symm, hinit⟩
    · exact hs.2 u b hu2
  | runBody t hlocked hinit =>
    have hc : s.initCount = 0 := by
      have h1 := hs.1
      rw [hinit] at h1
      simpa using h1
    refine ⟨by simp [hc], fun u b hu => ?_⟩
    rcases update_cases _ _ _ _ _ hu with ⟨rfl, hv⟩ | ⟨hne, hu2⟩
    · injection hv with hb
      exact ⟨hb.symm, rfl⟩
    · have h2 := (hs.2 u b hu2).2
      rw [hinit] at h2; cases h2

/-- Invariant under a failing environment: the flag never gets set and every
finished caller observed the failure. -/
def FailInv {n : Nat} (s : Sys n) : Prop :=
  s.initialized = false ∧ (∀ t b, s.threads t = .finished b → b = false)

/-- The failure invariant is preserved by every step with `env = false`. -/
theorem failInv_step {n : Nat} (s s2 : Sys n)
    (h : InitStep false s s2) (hs : FailInv s) : FailInv s2 := by
  cases h with
  | fastPathReady t hidle hinit =>
    rw [hs.1] at hinit; cases hinit
  | fastPathNotReady t hidle hinit =>
    refine ⟨hs.1, fun u b hu => ?_⟩
    rcases update_cases _ _ _ _ _ hu with ⟨rfl, hv⟩ | ⟨hne, hu2⟩
    · cases hv
    · exact hs.2 u b hu2
  | acquire t hwant hlock =>
    refine ⟨hs.1, fun u b hu => ?_⟩
    rcases update_cases _ _ _ _ _ hu with ⟨rfl, hv⟩ | ⟨hne, hu2⟩
    · cases hv
    · exact hs.2 u b hu2
  | recheckReady t hlocked hinit =>
    rw [hs.1] at hinit; cases hinit
  | runBody t hlocked hinit =>
    refine ⟨rfl, fun u b hu => ?_⟩
    rcases update_cases _ _ _ _ _ hu with ⟨rfl, hv⟩ | ⟨hne, hu2⟩
    · injection hv with hb
      exact hb.symm
    · exact hs.2 u b hu2

/-- The lock invariant holds in every reachable state. -/
theorem lockInv_reaches {n : Nat} (env : Bool) (s : Sys n)
    (h : InitReaches env (initSys n) s) : LockInv s := by
  induction h with
  | refl => exact ⟨fun t ht => PC.noConfusion ht, fun t ht => Option.noConfusion ht⟩
  | tail hreach hstep ih => exact lockInv_step env _ _ hstep ih

/-- The success invariant holds in every reachable state. -/
theorem succInv_reaches {n : Nat} (s : Sys n)
    (h : InitReaches true (initSys n) s) : SuccInv s := by
  induction h with
  | refl => exact ⟨rfl, fun t b ht => PC.noConfusion ht⟩
  | tail hreach hstep ih => exact succInv_step _ _ hstep ih

/-- The failure invariant holds in every reachable state. -/
theorem failInv_reaches {n : Nat} (s : Sys n)
    (h : InitReaches false (initSys n) s) : FailInv s := by
  induction h with
  | refl => exact ⟨rfl, fun t b ht => PC.noConfusion ht⟩
  | tail hreach hstep ih => exact failInv_step _ _ hstep ih

/-- Reachability transports along an equality of final states. -/
theorem initReaches_congr {n : Nat} (env : Bool) (s a b : Sys n)
    (h : InitReaches env s a) (heq : a = b) : InitReaches env s b :=
  heq ▸ h

/-- C2 amended: `initialize_rag` is mutually exclusive — in every reachable
state at most one caller is inside the locked section — and a caller that
finds the state READY returns without running the body (fast path / re-check
in the step relation).  When the initialization steps succeed, the
initialization body runs at most once over the whole execution, exactly once
in any completed execution, and every caller observes READY.  When the
initialization steps fail, however, each blocked caller re-runs the
initialization body in turn (still serialized), and every caller observes the
same failure (state left uninitialized). -/
theorem initialize_rag_exclusive_amended (n : Nat) (sMid sT sF : Sys n)
    (hn : 0 < n)
    (hMid : InitReaches true (initSys n) sMid)
    (hT : InitReaches true (initSys n) sT)
    (hF : InitReaches false (initSys n) sF)
    (hallT : ∀ t, ∃ b, sT.threads t = PC.finished b) :
    (∀ t u, sMid.threads t = PC.locked → sMid.threads u = PC.locked → t = u) ∧
    sMid.initCount ≤ 1 ∧
    sT.initCount = 1 ∧
    (∀ t b, sT.threads t = PC.finished b → b = true) ∧
    (∀ t u, sF.threads t = PC.locked → sF.threads u = PC.locked → t = u) ∧
    (∀ t b, sF.threads t = PC.finished b → b = false) := by
  have hLMid := lockInv_reaches true sMid hMid
  have hLF := lockInv_reaches false sF hF
  have hSMid := succInv_reaches sMid hMid
  have hST := succInv_reaches sT hT
  have hFF := failInv_reaches sF hF
  refine ⟨?_, ?_, ?_, ?_, ?_, ?_⟩
  · intro t u ht hu
    have h1 := hLMid.1 t ht
    have h2 := hLMid.1 u hu
    rw [h1] at h2
    injection h2
  · rw [hSMid.1]
    split <;> omega
  · obtain ⟨b, hb⟩ := hallT ⟨0, hn⟩
    have h2 := (hST.2 _ b hb).2
    rw [hST.1, h2]
    rfl
  · intro t b hb
    exact (hST.2 t b hb).1
  · intro t u ht hu
    have h1 := hLF.1 t ht
    have h2 := hLF.1 u hu
    rw [h1] at h2
    injection h2
  · intro t b hb
    exact hFF.2 t b hb

/-- C2 witness: one caller, both environments, with completed executions. -/
theorem initialize_rag_exclusive_amended_witness :
    (∀ t u : Fin 1, (initSys 1).threads t = PC.locked →
      (initSys 1).threads u = PC.locked → t = u) ∧
    (initSys 1).initCount ≤ 1 ∧
    (Sys.mk none true (fun _ : Fin 1 => PC.finished true) 1).initCount = 1 ∧
    (∀ (t : Fin 1) (b : Bool),
      (Sys.mk none true (fun _ : Fin 1 => PC.finished true) 1).threads t = PC.finished b →
        b = true) ∧
    (∀ t u : Fin 1,
      (Sys.mk none false (fun _ : Fin 1 => PC.finished false) 1).threads t = PC.locked →
      (Sys.mk none false (fun _ : Fin 1 => PC.finished false) 1).threads u = PC.locked →
        t = u) ∧
    (∀ (t : Fin 1) (b : Bool),
      (Sys.mk none false (fun _ : Fin 1 => PC.finished false) 1).threads t = PC.finished b →
        b = false) := by
  have hT : InitReaches true (initSys 1) (Sys.mk none true (fun _ => PC.finished true) 1) := by
    have hchain := ((Relation.ReflTransGen.single
        (@InitStep.fastPathNotReady true 1 (initSys 1) 0 rfl rfl)).tail
          (InitStep.acquire _ 0 (by decide) rfl)).tail
            (InitStep.runBody _ 0 (by decide) rfl)
    exact initReaches_congr true _ _ _ hchain
      (by congr 1; funext t; fin_cases t <;> decide)
  have hF : InitReaches false (initSys 1) (Sys.mk none false (fun _ => PC.finished false) 1) := by
    have hchain := ((Relation.ReflTransGen.single
        (@InitStep.fastPathNotReady false 1 (initSys 1) 0 rfl rfl)).tail
          (InitStep.acquire _ 0 (by decide) rfl)).tail
            (InitStep.runBody _ 0 (by decide) rfl)
    exact initReaches_congr false _ _ _ hchain
      (by congr 1; funext t; fin_cases t <;> decide)
  exact initialize_rag_exclusive_amended 1 (initSys 1)
    (Sys.mk none true (fun _ => PC.finished true) 1)
    (Sys.mk none false (fun _ => PC.finished false) 1)
    (by decide) Relation.ReflTransGen.refl hT hF (by intro t; exact ⟨true, rfl⟩)

/-- C2 counterexample: with two concurrent callers and failing initialization
steps, there is a complete execution (both callers finished) in which the
initialization body executed twice, refuting the claim that exactly one full
initialization sequence executes; both callers do observe the same failure. -/
theorem initialize_rag_counterexample :
    InitReaches false (initSys 2) (Sys.mk none false (fun _ => PC.finished false) 2) ∧
    (Sys.mk none false (fun _ : Fin 2 => PC.finished false) 2).threads 0
      = PC.finished false ∧
    (Sys.mk none false (fun _ : Fin 2 => PC.finished false) 2).threads 1
      = PC.finished false ∧
    (Sys.mk none false (fun _ : Fin 2 => PC.finished false) 2).initCount = 2 ∧
    (Sys.mk none false (fun _ : Fin 2 => PC.finished false) 2).initCount ≠ 1 := by
  refine ⟨?_, rfl, rfl, rfl, by decide⟩
  have hchain := (((((Relation.ReflTransGen.single
      (@InitStep.fastPathNotReady false 2 (initSys 2) 0 rfl rfl)).tail
        (InitStep.acquire _ 0 (by decide) rfl)).tail
          (InitStep.runBody _ 0 (by decide) rfl)).tail
            (InitStep.fastPathNotReady _ 1 (by decide) rfl)).tail
              (InitStep.acquire _ 1 (by decide) rfl)).tail
                (InitStep.runBody _ 1 (by decide) rfl)
  exact initReaches_congr false _ _ _ hchain
    (by congr 1; funext t; fin_cases t <;> decide)

/-- C10 witness: a store holding one topic with one older message. -/
theorem post_message_history_bounded_witness :
    ∃ store1 hist,
      post_message_history
        (fun q => if q = "t1" then some (Topic.mk "t1" "T" [Message.mk "user" "old"]) else none)
        "t1" "new" = some (store1, hist) ∧
      hist.length ≤ 10 ∧
      (∃ pre, pre ++ hist = (Topic.mk "t1" "T" [Message.mk "user" "old"]).messages) ∧
      Message.mk "user" "new" ∉ hist ∧
      load_topic store1 "t1" =
        some (Topic.mk (Topic.mk "t1" "T" [Message.mk "user" "old"]).id
          (Topic.mk "t1" "T" [Message.mk "user" "old"]).name
          ((Topic.mk "t1" "T" [Message.mk "user" "old"]).messages
            ++ [Message.mk "user" "new"])) :=
  post_message_history_bounded
    (fun q => if q = "t1" then some (Topic.mk "t1" "T" [Message.mk "user" "old"]) else none)
    "t1" "new" (Topic.mk "t1" "T" [Message.mk "user" "old"])
    (by decide) rfl (by decide)
